import Mathlib

/-!
Shallow embedding of the support layer of BGmi (`bgmi/utils/__init__.py`):
the cover bulk downloader, the URL-to-path normalization, the version
reconciliation / self-update flow, the frontend bundle installer and the
episode filter.  Python strings are modelled as `List Char`, bytes as
`List Nat`, and Python exceptions as an explicit `PyResult` sum.
-/

namespace BGmi

/-- Kinds of Python exceptions that the modelled code can raise or catch. -/
inductive Exn where
  | connectionError
  | timeout
  | jsonDecodeError
  | keyError
  | typeError
  | valueError
  | systemExit
  | fileNotFound
  | regexError
deriving DecidableEq, Repr

/-- Result of running a piece of Python code: a value or a raised exception. -/
inductive PyResult (α : Type) where
  | ok (a : α)
  | exn (e : Exn)
deriving DecidableEq, Repr

/-- Sequencing of Python statements: a raised exception propagates. -/
def pbind {α β : Type} : PyResult α → (α → PyResult β) → PyResult β
  | .ok a, f => f a
  | .exn e, _ => .exn e

/-- True when no exception was raised. -/
def PyResult.isOk {α : Type} : PyResult α → Bool
  | .ok _ => true
  | .exn _ => false

/-! ### Python `str.replace`, modelled on `List Char` with explicit fuel -/

/-- One step of Python `str.replace(old, new)`: scan left to right, replace
non-overlapping occurrences, never rescan the replacement text.  The fuel
argument makes the recursion structural; `replaceAll` instantiates it with
the length of the subject string, which always suffices. -/
def replaceAllFuel (p r : List Char) : Nat → List Char → List Char
  | 0, l => l
  | _ + 1, [] => []
  | fuel + 1, c :: cs =>
    if (!p.isEmpty) && p.isPrefixOf (c :: cs) then
      r ++ replaceAllFuel p r fuel ((c :: cs).drop p.length)
    else
      c :: replaceAllFuel p r fuel cs

/-- Python `subject.replace(p, r)` for a non-empty pattern `p`. -/
def replaceAll (p r l : List Char) : List Char :=
  replaceAllFuel p r l.length l

/-- The characters deleted by `normalize_path`
(`: * ? " < > | '` in the source). -/
def illegal_chars : List Char := [':', '*', '?', '"', '<', '>', '|', Char.ofNat 39]

/-- The loop `for char in illegal_char: url = url.replace(char, "")`. -/
def deleteChars (cs : List Char) (l : List Char) : List Char :=
  cs.foldl (fun acc c => replaceAll [c] [] acc) l

/-- The two scheme replacements performed first by `normalize_path`:
`url.replace("http://", "http/").replace("https://", "https/")`. -/
def schemeFold (url : List Char) : List Char :=
  replaceAll "https://".data "https/".data
    (replaceAll "http://".data "http/".data url)

/-- The final step of `normalize_path`: `if url.startswith("/"): return url[1:]`. -/
def stripLeadSep (u : List Char) : List Char :=
  if u.head? = some '/' then u.tail else u

/-- Embedding of `normalize_path`: fold the URL scheme into a path segment,
delete filesystem-illegal characters, drop one leading separator. -/
def normalize_path (url : List Char) : List Char :=
  stripLeadSep (deleteChars illegal_chars (schemeFold url))

/-- The path resolver exactly as the specification words it: same scheme
replacement, the illegal characters deleted by a single filter pass, one
leading separator dropped.  Kept separate from `normalize_path` so the two
can be compared. -/
def normalize_spec (url : List Char) : List Char :=
  stripLeadSep ((schemeFold url).filter (fun ch => !(illegal_chars.contains ch)))

/-! ### Lemmas about `replaceAll` -/

theorem replaceAllFuel_congr (p r : List Char) :
    ∀ f₁ f₂ l, l.length ≤ f₁ → l.length ≤ f₂ →
      replaceAllFuel p r f₁ l = replaceAllFuel p r f₂ l := by
  intro f₁
  induction f₁ with
  | zero =>
    intro f₂ l h₁ _
    have : l = [] := List.length_eq_zero.mp (Nat.le_zero.mp h₁)
    subst this
    cases f₂ <;> rfl
  | succ f ih =>
    intro f₂ l h₁ h₂
    cases l with
    | nil => cases f₂ <;> rfl
    | cons c cs =>
      cases f₂ with
      | zero => simp at h₂
      | succ g =>
        simp only [replaceAllFuel]
        by_cases hc : ((!p.isEmpty) && p.isPrefixOf (c :: cs)) = true
        · simp only [hc, if_true]
          have hp : 1 ≤ p.length := by
            cases p with
            | nil => simp at hc
            | cons a as => simp
          have hlen : ((c :: cs).drop p.length).length ≤ cs.length := by
            simp only [List.length_drop, List.length_cons]
            omega
          have h₁' : ((c :: cs).drop p.length).length ≤ f := by
            simp only [List.length_cons] at h₁; omega
          have h₂' : ((c :: cs).drop p.length).length ≤ g := by
            simp only [List.length_cons] at h₂; omega
          rw [ih g _ h₁' h₂']
        · simp only [hc, if_false]
          have h₁' : cs.length ≤ f := by
            simp only [List.length_cons] at h₁; omega
          have h₂' : cs.length ≤ g := by
            simp only [List.length_cons] at h₂; omega
          rw [ih g _ h₁' h₂']
          simp

theorem replaceAll_nil (p r : List Char) : replaceAll p r [] = [] := by
  cases p <;> rfl

theorem replaceAll_cons (p r : List Char) (c : Char) (cs : List Char) :
    replaceAll p r (c :: cs) =
      if (!p.isEmpty) && p.isPrefixOf (c :: cs) then
        r ++ replaceAll p r ((c :: cs).drop p.length)
      else
        c :: replaceAll p r cs := by
  unfold replaceAll
  simp only [List.length_cons, replaceAllFuel]
  by_cases hc : ((!p.isEmpty) && p.isPrefixOf (c :: cs)) = true
  · simp only [hc, if_true]
    have hp : 1 ≤ p.length := by
      cases p with
      | nil => simp at hc
      | cons a as => simp
    have : ((c :: cs).drop p.length).length ≤ cs.length := by
      simp only [List.length_drop, List.length_cons]
      omega
    rw [replaceAllFuel_congr p r cs.length ((c :: cs).drop p.length).length _ this le_rfl]
  · simp only [hc, if_false]
    rfl

theorem mem_of_isPrefixOf {x : Char} :
    ∀ {p l : List Char}, p.isPrefixOf l = true → x ∈ p → x ∈ l := by
  intro p
  induction p with
  | nil => intro l _ hx; cases hx
  | cons a as ih =>
    intro l hp hx
    cases l with
    | nil => simp [List.isPrefixOf] at hp
    | cons b bs =>
      simp only [List.isPrefixOf, Bool.and_eq_true, beq_iff_eq] at hp
      rcases List.mem_cons.mp hx with h | h
      · exact List.mem_cons.mpr (Or.inl (h.trans hp.1))
      · exact List.mem_cons.mpr (Or.inr (ih hp.2 h))

theorem replaceAll_eq_of_not_mem {ch : Char} {p : List Char} (r : List Char)
    (hch : ch ∈ p) : ∀ {l : List Char}, ch ∉ l → replaceAll p r l = l := by
  intro l
  induction l with
  | nil => intro _; exact replaceAll_nil p r
  | cons a as ih =>
    intro hl
    rw [replaceAll_cons]
    have hpre : p.isPrefixOf (a :: as) = false := by
      by_contra h
      have := mem_of_isPrefixOf (p := p) (l := a :: as)
        (Bool.of_not_eq_false h) hch
      exact hl this
    simp only [hpre, Bool.and_false, if_false]
    have : ch ∉ as := fun h => hl (List.mem_cons.mpr (Or.inr h))
    rw [ih this]
    simp

theorem replaceAll_single_eq_filter (c : Char) :
    ∀ l : List Char, replaceAll [c] [] l = l.filter (fun ch => !(ch == c)) := by
  intro l
  induction l with
  | nil => rfl
  | cons a as ih =>
    rw [replaceAll_cons]
    by_cases h : a = c
    · subst h
      have hpre : (([a] : List Char).isPrefixOf (a :: as)) = true := by
        simp [List.isPrefixOf]
      rw [hpre]
      simp only [List.isEmpty_cons, Bool.not_false, Bool.true_and, if_true,
        List.length_cons, List.length_nil, List.drop_succ_cons, List.drop_zero,
        List.nil_append, List.filter_cons, beq_self_eq_true, Bool.not_true, ih]
      simp
    · have hpre : (([c] : List Char).isPrefixOf (a :: as)) = false := by
        simp only [List.isPrefixOf, List.isPrefixOf_nil_left, Bool.and_true,
          beq_eq_false_iff_ne, ne_eq]
        exact fun hh => h hh.symm
      rw [hpre]
      have hne : (a == c) = false := beq_eq_false_iff_ne.mpr h
      simp only [Bool.and_false, if_false, List.filter_cons, hne, Bool.not_false, ih]
      simp

theorem deleteChars_eq_filter :
    ∀ (cs : List Char) (l : List Char),
      deleteChars cs l = l.filter (fun ch => !(cs.contains ch)) := by
  intro cs
  induction cs with
  | nil =>
    intro l
    simp [deleteChars, List.filter_eq_self]
  | cons c rest ih =>
    intro l
    have step : deleteChars (c :: rest) l = deleteChars rest (replaceAll [c] [] l) := rfl
    rw [step, ih, replaceAll_single_eq_filter, List.filter_filter]
    apply List.filter_congr
    intro x _
    by_cases hx : x = c
    · subst hx; simp [List.contains_cons]
    · have h1 : (c == x) = false := beq_eq_false_iff_ne.mpr (fun hh => hx hh.symm)
      have h2 : (x == c) = false := beq_eq_false_iff_ne.mpr hx
      simp [List.contains_cons, h1, h2, Bool.not_or]
      exact fun _ => hx

theorem contains_of_mem {a : Char} : ∀ {l : List Char}, a ∈ l → l.contains a = true := by
  intro l h
  induction l with
  | nil => cases h
  | cons b bs ih =>
    rcases List.mem_cons.mp h with h1 | h1
    · subst h1; simp [List.contains_cons]
    · simp only [List.contains_cons, Bool.or_eq_true, beq_iff_eq, ih h1, Bool.or_true]

theorem mem_stripLeadSep {ch : Char} {u : List Char} (h : ch ∈ stripLeadSep u) : ch ∈ u := by
  unfold stripLeadSep at h
  by_cases hh : u.head? = some '/'
  · rw [if_pos hh] at h
    exact List.mem_of_mem_tail h
  · rwa [if_neg hh] at h

theorem normalize_path_no_illegal (s : List Char) :
    ∀ ch ∈ normalize_path s, illegal_chars.contains ch = false := by
  intro ch hch
  unfold normalize_path at hch
  rw [deleteChars_eq_filter] at hch
  have hmem := mem_stripLeadSep hch
  have := List.of_mem_filter hmem
  simpa using this

/-- `C7`: `normalize_path` is the pure total function the specification
describes: it replaces `http://` by `http/` and `https://` by `https/`,
deletes every occurrence of the illegal characters, and drops exactly one
leading separator; in particular it maps `https://a.com/x:y?z` to
`https/a.com/xyz`. -/
theorem normalize_path_refines_spec :
    (∀ s : List Char, normalize_path s = normalize_spec s) ∧
    normalize_path "https://a.com/x:y?z".data = "https/a.com/xyz".data := by
  constructor
  · intro s
    unfold normalize_path normalize_spec
    rw [deleteChars_eq_filter]
  · decide

/-- `C6` counterexample: `normalize_path` is not idempotent on every input;
on `"//a"` one application yields `"/a"` and a second application strips a
further separator. -/
theorem normalize_path_not_idempotent :
    normalize_path (normalize_path "//a".data) ≠ normalize_path "//a".data := by
  decide

/-- `C6` amended: `normalize_path` is idempotent on every input whose
normalized form does not begin with a path separator (the only way a second
application can differ is by stripping one more leading separator). -/
theorem normalize_path_idem (s : List Char)
    (h : (normalize_path s).head? ≠ some '/') :
    normalize_path (normalize_path s) = normalize_path s := by
  have hno : ∀ ch ∈ normalize_path s, illegal_chars.contains ch = false :=
    normalize_path_no_illegal s
  have hcolon : ':' ∉ normalize_path s := by
    intro hc
    have h0 := hno ':' hc
    have h1 : illegal_chars.contains ':' = true := by decide
    rw [h0] at h1
    exact Bool.false_ne_true h1
  have h1 : replaceAll "http://".data "http/".data (normalize_path s) = normalize_path s :=
    replaceAll_eq_of_not_mem _ (by decide) hcolon
  have h2 : replaceAll "https://".data "https/".data (normalize_path s) = normalize_path s :=
    replaceAll_eq_of_not_mem _ (by decide) hcolon
  have h3 : deleteChars illegal_chars (normalize_path s) = normalize_path s := by
    rw [deleteChars_eq_filter]
    apply List.filter_eq_self.mpr
    intro a ha
    simp only [Bool.not_eq_true']
    exact hno a ha
  show stripLeadSep (deleteChars illegal_chars (schemeFold (normalize_path s))) = _
  unfold schemeFold
  rw [h1, h2, h3]
  unfold stripLeadSep
  rw [if_neg h]

/-- Witness for `normalize_path_idem` at a concrete already-clean input. -/
theorem normalize_path_idem_witness :
    (normalize_path "https://a.com/x".data).head? ≠ some '/' ∧
    normalize_path (normalize_path "https://a.com/x".data) =
      normalize_path "https://a.com/x".data :=
  ⟨by decide, normalize_path_idem _ (by decide)⟩

/-! ### Python scalar helpers: string order, `int()`, `str()`, `split(".")` -/

/-- Python string comparison `a < b`: lexicographic on code points, a strict
proper initial segment compares smaller. -/
def pyStrLt : List Char → List Char → Bool
  | [], [] => false
  | [], _ :: _ => true
  | _ :: _, [] => false
  | a :: as, b :: bs => if a = b then pyStrLt as bs else decide (a.toNat < b.toNat)

/-- Python string comparison `a > b`. -/
def pyStrGt (a b : List Char) : Bool := pyStrLt b a

/-- Python list comparison `a < b` on integer lists: elementwise, first
difference decides, an exhausted left list compares smaller. -/
def pyListLtI : List Int → List Int → Bool
  | [], [] => false
  | [], _ :: _ => true
  | _ :: _, [] => false
  | a :: as, b :: bs => if a = b then pyListLtI as bs else decide (a < b)

/-- Python list comparison `a > b` on integer lists. -/
def pyListGtI (a b : List Int) : Bool := pyListLtI b a

/-- Whitespace recognized by Python `str.strip()` and ignored by `int()`. -/
def isSpaceC (c : Char) : Bool :=
  c.toNat = 32 || c.toNat = 9 || c.toNat = 10 || c.toNat = 13 || c.toNat = 11 || c.toNat = 12

/-- ASCII decimal digit test. -/
def isDigitC (c : Char) : Bool := 48 ≤ c.toNat && c.toNat ≤ 57

/-- Python `str.strip()`: drop leading and trailing whitespace. -/
def stripWS (l : List Char) : List Char :=
  ((l.dropWhile isSpaceC).reverse.dropWhile isSpaceC).reverse

/-- Numeric value of a non-empty all-digit character list. -/
def foldDigits (l : List Char) : Nat :=
  l.foldl (fun a c => a * 10 + (c.toNat - 48)) 0

/-- Value of a digit string, or `none` when empty or containing a non-digit. -/
def digitsVal (l : List Char) : Option Nat :=
  if l.isEmpty then none
  else if l.all isDigitC then some (foldDigits l) else none

/-- Sign-and-digits part of Python `int(s)`, after whitespace stripping. -/
def pyIntParseCore : List Char → Option Int
  | [] => none
  | c :: ds =>
    if c = '-' then (digitsVal ds).map (fun n => -(n : Int))
    else if c = '+' then (digitsVal ds).map (fun n => (n : Int))
    else (digitsVal (c :: ds)).map (fun n => (n : Int))

/-- Python `int(s)` on a string: strip whitespace, optional sign, decimal
digits; any other shape raises `ValueError`, modelled as `none`. -/
def pyIntParse (s : List Char) : Option Int :=
  pyIntParseCore (stripWS s)

/-- The ASCII digit character for a value below ten. -/
def digitChar (n : Nat) : Char := Char.ofNat (48 + n)

/-- Decimal digits of `n`, most significant first; fuel-driven so the
definition is structural and computes by reduction. -/
def natDigits : Nat → Nat → List Char
  | 0, _ => []
  | fuel + 1, n =>
    if n < 10 then [digitChar n] else natDigits fuel (n / 10) ++ [digitChar (n % 10)]

/-- Python `str(n)` for a natural number. -/
def natToStr (n : Nat) : List Char := natDigits (n + 1) n

/-- Python `version.split(".")` on a character list. -/
def splitOnC (sep : Char) : List Char → List (List Char)
  | [] => [[]]
  | c :: cs =>
    let r := splitOnC sep cs
    if c = sep then [] :: r
    else
      match r with
      | [] => [[c]]
      | h :: t => (c :: h) :: t

/-- `[int(x) for x in v.split(".")]`: `none` models the `ValueError` raised
when a component is not an integer literal. -/
def parseVersionInts (s : List Char) : Option (List Int) :=
  (splitOnC '.' s).mapM pyIntParse

/-- Modelled from the spec: the VersionMarker comparator the specification
describes, which zero-pads the shorter sequence before the component-wise
comparison.  Kept separate so it can be compared with the comparisons the
code performs. -/
def specPaddedGt (a b : List Int) : Bool :=
  pyListGtI (a ++ List.replicate (max a.length b.length - a.length) 0)
    (b ++ List.replicate (max a.length b.length - b.length) 0)

/-! ### Round trip: `int(str(n)) = n` -/

theorem digitChar_toNat {m : Nat} (h : m < 10) : (digitChar m).toNat = 48 + m := by
  interval_cases m <;> rfl

theorem isDigitC_digitChar {m : Nat} (h : m < 10) : isDigitC (digitChar m) = true := by
  interval_cases m <;> rfl

theorem natDigits_spec :
    ∀ fuel n, n < fuel →
      natDigits fuel n ≠ [] ∧ (natDigits fuel n).all isDigitC = true ∧
        foldDigits (natDigits fuel n) = n := by
  intro fuel
  induction fuel with
  | zero => intro n h; omega
  | succ f ih =>
    intro n h
    by_cases h10 : n < 10
    · simp only [natDigits, h10, if_true]
      refine ⟨by simp, ?_, ?_⟩
      · simp [List.all_cons, isDigitC_digitChar h10]
      · simp [foldDigits, digitChar_toNat h10]
    · have hd : n / 10 < f := by omega
      obtain ⟨hne, hall, hval⟩ := ih (n / 10) hd
      have hm : n % 10 < 10 := Nat.mod_lt _ (by omega)
      simp only [natDigits, h10, if_false]
      refine ⟨by simp, ?_, ?_⟩
      · simp [List.all_append, hall, List.all_cons, isDigitC_digitChar hm]
      · unfold foldDigits
        rw [List.foldl_append]
        have : foldDigits (natDigits f (n / 10)) = n / 10 := hval
        unfold foldDigits at this
        rw [this]
        simp only [List.foldl_cons, List.foldl_nil, digitChar_toNat hm]
        omega

theorem dropWhile_eq_self_of_none {p : Char → Bool} :
    ∀ {l : List Char}, (∀ c ∈ l, p c = false) → l.dropWhile p = l := by
  intro l h
  cases l with
  | nil => rfl
  | cons a as =>
    have := h a (List.mem_cons_self a as)
    simp [List.dropWhile, this]

theorem isSpaceC_of_isDigitC {c : Char} (h : isDigitC c = true) : isSpaceC c = false := by
  simp only [isDigitC, Bool.and_eq_true, decide_eq_true_eq] at h
  simp only [isSpaceC]
  simp only [Bool.or_eq_false_iff, decide_eq_false_iff_not]
  omega

theorem stripWS_of_digits {l : List Char} (h : l.all isDigitC = true) : stripWS l = l := by
  have hmem : ∀ c ∈ l, isDigitC c = true := by
    intro c hc
    exact List.all_eq_true.mp h c hc
  have h1 : l.dropWhile isSpaceC = l :=
    dropWhile_eq_self_of_none (fun c hc => isSpaceC_of_isDigitC (hmem c hc))
  have h2 : l.reverse.dropWhile isSpaceC = l.reverse :=
    dropWhile_eq_self_of_none
      (fun c hc => isSpaceC_of_isDigitC (hmem c (List.mem_reverse.mp hc)))
  unfold stripWS
  rw [h1, h2, List.reverse_reverse]

theorem pyIntParse_natToStr (n : Nat) : pyIntParse (natToStr n) = some (n : Int) := by
  obtain ⟨hne, hall, hval⟩ := natDigits_spec (n + 1) n (Nat.lt_succ_self n)
  have hneS : natToStr n ≠ [] := hne
  have hallS : (natToStr n).all isDigitC = true := hall
  have hvalS : foldDigits (natToStr n) = n := hval
  have hstrip : stripWS (natToStr n) = natToStr n := stripWS_of_digits hallS
  unfold pyIntParse
  rw [hstrip]
  cases hd : natToStr n with
  | nil => exact absurd hd hneS
  | cons c ds =>
    have hcd : isDigitC c = true :=
      List.all_eq_true.mp (hd ▸ hallS) c (List.mem_cons_self c ds)
    have hminus : ¬(c = '-') := by
      intro hc
      rw [hc] at hcd
      exact absurd hcd (by decide)
    have hplus : ¬(c = '+') := by
      intro hc
      rw [hc] at hcd
      exact absurd hcd (by decide)
    simp only [pyIntParseCore]
    rw [if_neg hminus, if_neg hplus]
    have hdv : digitsVal (c :: ds) = some n := by
      unfold digitsVal
      rw [if_neg (by simp), if_pos (hd ▸ hallS)]
      rw [← hd, hvalS]
    rw [hdv]
    rfl

/-! ### JSON values (the shapes used by the update flow) -/

mutual
/-- A parsed JSON value: only strings and objects occur in the modelled flow. -/
inductive JVal where
  | jstr (s : List Char)
  | jobj (fields : JFields)

/-- Fields of a JSON object, keyed by strings. -/
inductive JFields where
  | nil
  | cons (k : List Char) (v : JVal) (rest : JFields)
end

/-- Key lookup in a JSON object's fields. -/
def jfLookup (k : List Char) : JFields → Option JVal
  | .nil => none
  | .cons k2 v rest => if k = k2 then some v else jfLookup k rest

/-- Python `j[k]`: `KeyError` on a missing key, `TypeError` when the value
is not a dict. -/
def jget1 (j : JVal) (k : List Char) : PyResult JVal :=
  match j with
  | .jobj fs =>
    match jfLookup k fs with
    | some v => .ok v
    | none => .exn .keyError
  | .jstr _ => .exn .typeError

/-- `jget1` lifted over an already possibly-raised value. -/
def jgetP (x : PyResult JVal) (k : List Char) : PyResult JVal :=
  pbind x (fun j => jget1 j k)

/-- Extract a JSON string, `TypeError`-style failure otherwise. -/
def asStrP (x : PyResult JVal) : PyResult (List Char) :=
  pbind x (fun j =>
    match j with
    | .jstr s => .ok s
    | _ => .exn .typeError)

/-- Contiguous substring test, as Python `key in s` on strings. -/
def containsSub (key : List Char) : List Char → Bool
  | [] => key.isEmpty
  | c :: cs => key.isPrefixOf (c :: cs) || containsSub key cs

/-- Python `key in j`: dict key containment, or substring test on a string. -/
def jcontains (key : List Char) (j : JVal) : Bool :=
  match j with
  | .jobj fs => (jfLookup key fs).isSome
  | .jstr s => containsSub key s

/-! ### `check_update` and its inner `update()` -/

/-- Console messages emitted by `check_update.update`. -/
inductive UpdMsg where
  | checkingUpdate
  | warnUpgrade
  | successLatest
  | hintInstall
  | warnError
deriving DecidableEq, Repr

/-- Remote and local state read by one run of `check_update.update` with the
default `mark=True`: the two npm/pypi JSON bodies (or the exception their
fetch raised), the optional parsed local frontend `package.json`, and the
compiled-in `__version__` string. -/
structure UpdateEnv where
  pypiJson : PyResult JVal
  packageJson : PyResult JVal
  localPkg : Option (PyResult JVal)
  localVersion : List Char

/-- Observable outcome of one run of `check_update.update`: messages printed,
content written to the `latest` file, and whether `get_web_admin` was
invoked. -/
structure UpdateOutcome where
  msgs : List UpdMsg
  latestFile : Option (List Char)
  frontendInstalled : Bool
deriving DecidableEq, Repr

/-- Embedding of the body of `check_update.update` (`mark=True`): fetch the
pypi package index, record its version in `latest`, compare it with
`__version__` by plain string comparison; then fetch the frontend package
metadata and, when a local `package.json` exists, compare the dot-split
integer lists with Python list comparison, installing when remote is
greater; any exception is reduced to a warning. -/
def updateOnce (env : UpdateEnv) : UpdateOutcome :=
  match asStrP (jgetP (jgetP env.pypiJson "info".data) "version".data) with
  | .exn _ => ⟨[.checkingUpdate, .warnError], none, false⟩
  | .ok version =>
    let m1 := if pyStrGt version env.localVersion then UpdMsg.warnUpgrade
              else UpdMsg.successLatest
    match asStrP (jgetP env.packageJson "version".data) with
    | .exn _ => ⟨[.checkingUpdate, m1, .warnError], some version, false⟩
    | .ok admin_version =>
      match env.localPkg with
      | none => ⟨[.checkingUpdate, m1, .hintInstall], some version, false⟩
      | some lp =>
        match asStrP (jgetP lp "version".data) with
        | .exn _ => ⟨[.checkingUpdate, m1, .warnError], some version, false⟩
        | .ok local_version =>
          match parseVersionInts admin_version, parseVersionInts local_version with
          | some av, some lv =>
            if pyListGtI av lv then ⟨[.checkingUpdate, m1], some version, true⟩
            else ⟨[.checkingUpdate, m1], some version, false⟩
          | _, _ => ⟨[.checkingUpdate, m1, .warnError], some version, false⟩

/-- Seven days in seconds, the marker-file expiry used by `check_update`. -/
def SEVEN_DAYS : Nat := 7 * 24 * 3600

/-- Embedding of the marker-file state machine of `check_update` (the
`update()` body never touches the `version` marker file, so it is tracked
here only as the number of times it runs).  Input: the current time and the
contents of the `version` marker file (`none` when the file is missing).
Output: the new marker contents and how many times `update()` ran. -/
def check_update (now : Nat) (marker : Option (List Char)) :
    Option (List Char) × Nat :=
  let step1 : Option (List Char) × Nat :=
    match marker with
    | none => (some (natToStr now), 1)
    | some s => (some s, 0)
  match step1.1 with
  | none => (none, step1.2)
  | some content =>
    match pyIntParse content with
    | none => (step1.1, step1.2)
    | some data =>
      if (now : Int) - (SEVEN_DAYS : Int) > data then
        (some (natToStr now), step1.2 + 1)
      else (step1.1, step1.2)

/-- `C5`: the marker-file state machine: a missing marker is written with the
current timestamp and the update check runs exactly once; a stored integer
timestamp more than seven days (604800s) old is overwritten with the current
time and triggers exactly one update check; a newer timestamp triggers none
and leaves the state unchanged; a non-integer marker is a do-nothing. -/
theorem check_update_marker_state (now : Nat) (s : List Char) (d : Int) :
    (check_update now none = (some (natToStr now), 1)) ∧
    (pyIntParse s = some d → (now : Int) - (SEVEN_DAYS : Int) > d →
      check_update now (some s) = (some (natToStr now), 1)) ∧
    (pyIntParse s = some d → ¬((now : Int) - (SEVEN_DAYS : Int) > d) →
      check_update now (some s) = (some s, 0)) ∧
    (pyIntParse s = none → check_update now (some s) = (some s, 0)) := by
  refine ⟨?_, ?_, ?_, ?_⟩
  · simp only [check_update, pyIntParse_natToStr]
    have hle : ¬((now : Int) - (SEVEN_DAYS : Int) > (now : Int)) := by
      unfold SEVEN_DAYS
      omega
    rw [if_neg hle]
  · intro hp hgt
    simp only [check_update, hp]
    rw [if_pos hgt]
  · intro hp hngt
    simp only [check_update, hp]
    rw [if_neg hngt]
  · intro hp
    simp only [check_update, hp]

/-- Witness for `check_update_marker_state`: a marker of `100` at time
`1000000` is expired, `999999` is fresh, `abc` is malformed. -/
theorem check_update_marker_state_witness :
    (pyIntParse "100".data = some 100 ∧
      (1000000 : Int) - (SEVEN_DAYS : Int) > 100 ∧
      check_update 1000000 (some "100".data) = (some (natToStr 1000000), 1)) ∧
    (pyIntParse "999999".data = some 999999 ∧
      ¬((1000000 : Int) - (SEVEN_DAYS : Int) > 999999) ∧
      check_update 1000000 (some "999999".data) = (some "999999".data, 0)) ∧
    (pyIntParse "abc".data = none ∧
      check_update 1000000 (some "abc".data) = (some "abc".data, 0)) ∧
    check_update 1000000 none = (some (natToStr 1000000), 1) := by
  refine ⟨⟨by decide, by decide, ?_⟩, ⟨by decide, by decide, ?_⟩, ⟨by decide, ?_⟩, ?_⟩
  · exact (check_update_marker_state 1000000 "100".data 100).2.1 (by decide) (by decide)
  · exact (check_update_marker_state 1000000 "999999".data 999999).2.2.1 (by decide) (by decide)
  · exact (check_update_marker_state 1000000 "abc".data 0).2.2.2 (by decide)
  · exact (check_update_marker_state 1000000 "x".data 0).1

/-- JSON object with a single `version` field. -/
def jver (v : List Char) : JVal := .jobj (.cons "version".data (.jstr v) .nil)

/-- Environment exercising both comparisons of `check_update.update`: remote
pypi version `2.10` against compiled-in `2.9`, remote frontend `1.0.0`
against local frontend `1.0`. -/
def envC1 : UpdateEnv :=
  ⟨.ok (.jobj (.cons "info".data (jver "2.10".data) .nil)),
    .ok (jver "1.0.0".data),
    some (.ok (jver "1.0".data)),
    "2.9".data⟩

/-- Environment whose frontend comparison is `2.10` against local `2.9`. -/
def envC1b : UpdateEnv :=
  ⟨.ok (.jobj (.cons "info".data (jver "2.10".data) .nil)),
    .ok (jver "2.10".data),
    some (.ok (jver "2.9".data)),
    "2.9".data⟩

/-- `C1` counterexample: the pypi comparison of `check_update.update` does
not use the zero-padded component-wise comparator — with remote `2.10` and
local `2.9` it reports the tool up to date (no upgrade warning) although the
zero-padded comparator orders `2.10 > 2.9`; and the frontend comparison
installs for remote `1.0.0` against local `1.0` although the zero-padded
comparator makes them equal. -/
theorem version_compare_counterexample :
    (updateOnce envC1).msgs = [UpdMsg.checkingUpdate, UpdMsg.successLatest] ∧
    (updateOnce envC1).frontendInstalled = true ∧
    parseVersionInts "2.10".data = some [2, 10] ∧
    parseVersionInts "2.9".data = some [2, 9] ∧
    specPaddedGt [2, 10] [2, 9] = true ∧
    parseVersionInts "1.0.0".data = some [1, 0, 0] ∧
    parseVersionInts "1.0".data = some [1, 0] ∧
    specPaddedGt [1, 0, 0] [1, 0] = false := by
  decide

theorem pyListLtI_self_append :
    ∀ (xs : List Int) (y : Int) (ys : List Int), pyListLtI xs (xs ++ y :: ys) = true := by
  intro xs
  induction xs with
  | nil => intro y ys; rfl
  | cons x xt ih =>
    intro y ys
    simp only [List.cons_append, pyListLtI, if_pos rfl]
    exact ih y ys

/-- `C1` amended: `check_update` uses two different comparators — the pypi
check compares raw version strings lexicographically (`2.10` is not treated
as newer than `2.9`) while the frontend check compares dot-split integer
sequences component-wise numerically without zero-padding, so `2.9 < 2.10`
numerically and a strict prefix such as `1.0` is strictly smaller than
`1.0.0` (not equal). -/
theorem check_update_comparators (a b : Int) (as bs : List Int) (h : a < b) :
    (updateOnce envC1b).msgs = [UpdMsg.checkingUpdate, UpdMsg.successLatest] ∧
    (updateOnce envC1b).frontendInstalled = true ∧
    (updateOnce envC1).frontendInstalled = true ∧
    pyListGtI (b :: bs) (a :: as) = true ∧
    pyListGtI ((a :: as) ++ b :: bs) (a :: as) = true ∧
    pyStrGt "2.10".data "2.9".data = false := by
  refine ⟨by decide, by decide, by decide, ?_, ?_, by decide⟩
  · have hne : ¬(a = b) := by omega
    simp only [pyListGtI, pyListLtI]
    rw [if_neg hne]
    simpa using h
  · simp only [pyListGtI]
    exact pyListLtI_self_append (a :: as) b bs

/-! ### `get_web_admin`: the frontend bundle installer -/

mutual
/-- Serialization of a JSON value, as `json.dumps` writes the manifest. -/
def jdump : JVal → List Char
  | .jstr s => '"' :: s ++ ['"']
  | .jobj fs => Char.ofNat 123 :: jdumpFields fs ++ [Char.ofNat 125]

/-- Serialization of the fields of a JSON object. -/
def jdumpFields : JFields → List Char
  | .nil => []
  | .cons k v .nil => '"' :: k ++ '"' :: ':' :: ' ' :: jdump v
  | .cons k v rest =>
    '"' :: k ++ '"' :: ':' :: ' ' :: jdump v ++ ',' :: ' ' :: jdumpFields rest
end

/-- Remote interactions available to `get_web_admin`: the two npm JSON
bodies (with the exception their fetch or parse raised, if any), the tarball
fetch by URL, gzip decompression and tar extraction of raw bytes. -/
structure WebEnv where
  registryJson : PyResult JVal
  packageJson : PyResult JVal
  getTar : List Char → PyResult (List Nat)
  gunzip : List Nat → PyResult (List Nat)
  untar : List Nat → PyResult (List ((List Char) × List Nat))

/-- How a completed `get_web_admin` call ended. -/
inductive GWAStatus where
  | warned
  | installed
deriving DecidableEq, Repr

/-- The frontend bundle directory: files under `front_static_path`, keyed by
relative path. -/
structure FrontFS where
  files : List ((List Char) × List Nat)
deriving DecidableEq, Repr

/-- Step 1 of `get_web_admin`, the body of its `try` block: fetch the
registry entry and the package metadata, bail out on an npm `error` field,
resolve `r["versions"][version["version"]]["dist"]["tarball"]`, and fetch
that tarball.  No filesystem access occurs here. -/
def gwaStep1 (env : WebEnv) : PyResult (JVal × List Nat) :=
  pbind env.registryJson fun r =>
  pbind env.packageJson fun version =>
  if jcontains "error".data version then .exn .systemExit
  else
    pbind (asStrP (jget1 version "version".data)) fun vkey =>
    pbind (asStrP (jgetP (jgetP (jgetP (jget1 r "versions".data) vkey) "dist".data)
        "tarball".data)) fun tar_url =>
    pbind (env.getTar tar_url) fun content =>
    .ok (version, content)

/-- Drop the `package/dist/` prefix from a path that has it, as the move
loop of `get_web_admin` relocates everything under `package/dist` to the
bundle root. -/
def stripDist (p : List Char) : List Char :=
  if "package/dist/".data.isPrefixOf p then p.drop "package/dist/".data.length else p

/-- Embedding of `get_web_admin`: run step 1 with its two `except` handlers
(connection error and malformed JSON reduce to a warning), then decompress,
wipe and recreate the bundle directory, extract, flatten `package/dist`, and
write the manifest.  The returned `FrontFS` is the bundle directory state
when the call ends, whether it returns or raises. -/
def get_web_admin (env : WebEnv) (fs : FrontFS) : FrontFS × PyResult GWAStatus :=
  match gwaStep1 env with
  | .exn Exn.connectionError => (fs, .ok .warned)
  | .exn Exn.jsonDecodeError => (fs, .ok .warned)
  | .exn e => (fs, .exn e)
  | .ok (version, content) =>
    match env.gunzip content with
    | .exn e => (fs, .exn e)
    | .ok tarBytes =>
      match env.untar tarBytes with
      | .exn e => (⟨[]⟩, .exn e)
      | .ok entries =>
        if entries.any (fun kv => "package/dist/".data.isPrefixOf kv.1) then
          (⟨("package.json".data, (jdump version).map Char.toNat)
              :: entries.map (fun kv => (stripDist kv.1, kv.2))⟩, .ok .installed)
        else (⟨entries⟩, .exn .fileNotFound)

/-- `C2`: a connection failure or malformed JSON while resolving the
registry entry or fetching the tarball aborts `get_web_admin` with a
warning and leaves the bundle directory (and all modelled disk state)
exactly as it was. -/
theorem get_web_admin_atomic_failure (env : WebEnv) (fs : FrontFS)
    (h : gwaStep1 env = .exn .connectionError ∨ gwaStep1 env = .exn .jsonDecodeError) :
    get_web_admin env fs = (fs, .ok .warned) := by
  rcases h with h | h <;> simp [get_web_admin, h]

/-- Registry body for the `get_web_admin` witness. -/
def registryW : JVal :=
  .jobj (.cons "versions".data
    (.jobj (.cons "9.0.1".data
      (.jobj (.cons "dist".data
        (.jobj (.cons "tarball".data
          (.jstr "https://registry.npmjs.com/x.tgz".data) .nil)) .nil)) .nil)) .nil)

/-- Environment in which the tarball fetch raises a connection error. -/
def envC2 : WebEnv :=
  ⟨.ok registryW, .ok (jver "9.0.1".data),
    fun _ => .exn .connectionError,
    fun b => .ok b,
    fun _ => .ok []⟩

/-- A non-empty bundle directory. -/
def fsC2 : FrontFS := ⟨[("package.json".data, [1, 2, 3])]⟩

/-- Witness for `get_web_admin_atomic_failure`: the tarball fetch fails with
a connection error and the populated bundle directory is untouched. -/
theorem get_web_admin_atomic_failure_witness :
    (gwaStep1 envC2 = .exn .connectionError ∨ gwaStep1 envC2 = .exn .jsonDecodeError) ∧
    get_web_admin envC2 fsC2 = (fsC2, .ok .warned) :=
  ⟨Or.inl rfl, get_web_admin_atomic_failure envC2 fsC2 (Or.inl rfl)⟩

/-! ### `download_file` and `download_cover` -/

/-- An HTTP response: status code and body bytes. -/
structure Response where
  status_code : Nat
  content : List Nat
deriving DecidableEq, Repr

/-- Truthiness of a `requests.Response`: `bool(r)` is `r.ok`, which is false
exactly when `raise_for_status` would raise, i.e. for 4xx and 5xx codes. -/
def Response.ok (r : Response) : Bool :=
  !(decide (400 ≤ r.status_code) && decide (r.status_code < 600))

/-- The network: `requests.get(url, timeout=t)` as a function of the URL and
the timeout, returning a response or raising. -/
structure Net where
  get : List Char → Nat → PyResult Response

/-- Embedding of `download_file`: attempt only `http://`/`https://` URLs
with a 60 second timeout, return `None` for anything else; an exception
raised by `requests.get` propagates (there is no handler). -/
def download_file (net : Net) (url : List Char) : PyResult (Option Response) :=
  if "https://".data.isPrefixOf url || "http://".data.isPrefixOf url then
    pbind (net.get url 60) (fun r => .ok (some r))
  else .ok none

/-- Configuration consumed by the cover downloader: `cfg.save_path`. -/
structure CoverCfg where
  save_path : List Char

/-- `os.path.join(a, b)` for POSIX paths. -/
def path_join (a b : List Char) : List Char :=
  if b.head? = some '/' then b
  else if a.isEmpty then b
  else if a.getLast? = some '/' then a ++ b
  else a ++ '/' :: b

/-- Drop trailing separators, as `posixpath.dirname` does on the head part. -/
def rstripSlashes (l : List Char) : List Char :=
  (l.reverse.dropWhile (fun c => c = '/')).reverse

/-- `os.path.dirname` for POSIX paths: everything up to the last separator,
with trailing separators stripped unless the head is all separators. -/
def dirname (p : List Char) : List Char :=
  match p.reverse.findIdx? (fun c => c = '/') with
  | none => []
  | some j =>
    let head := p.take (p.length - j)
    if head.all (fun c => c = '/') then head else rstripSlashes head

/-- Embedding of `convert_cover_url_to_path`: normalize the URL and place it
under the `cover` namespace of the configured save root, returning the
directory part and the file path. -/
def convert_cover_url_to_path (save_path : List Char) (cover_url : List Char) :
    (List Char) × List Char :=
  let file_path := path_join (path_join save_path "cover".data) (normalize_path cover_url)
  (dirname file_path, file_path)

/-- The filesystem state seen by `download_cover`: existing directories and
files (most recent write first; lookup returns the latest content). -/
structure FS where
  dirs : List (List Char)
  files : List ((List Char) × List Nat)
deriving DecidableEq, Repr

/-- File content at a path, after all writes so far. -/
def fsRead (fs : FS) (p : List Char) : Option (List Nat) :=
  fs.files.lookup p

/-- The `glob.glob(dir_path)` existence test used before `os.makedirs`. -/
def fsDirExists (fs : FS) (d : List Char) : Bool := fs.dirs.contains d

/-- `os.makedirs(dir_path)`. -/
def fsMakedirs (fs : FS) (d : List Char) : FS := ⟨d :: fs.dirs, fs.files⟩

/-- `open(file_path, "wb").write(content)`: overwrites prior content. -/
def fsWrite (fs : FS) (p : List Char) (content : List Nat) : FS :=
  ⟨fs.dirs, (p, content) :: fs.files⟩

/-- First exception among the pooled fetch results; `ThreadPool.map`
re-raises it in the calling thread. -/
def firstExn {α : Type} : List (PyResult α) → Option Exn
  | [] => none
  | .exn e :: _ => some e
  | .ok _ :: rest => firstExn rest

/-- The fetch result paired with each URL, with the falsy cases collapsed:
`None` for skipped URLs (and unreachable raised fetches). -/
def fetchOpt (net : Net) (u : List Char) : Option Response :=
  match download_file net u with
  | .ok v => v
  | .exn _ => none

/-- Whether `download_cover`'s `if not r` test accepts this fetch result. -/
def fetchTruthy (r : PyResult (Option Response)) : Bool :=
  match r with
  | .ok (some resp) => resp.ok
  | _ => false

/-- The write `download_cover` performs for one URL, if any: target file
path and bytes. -/
def coverEntry (save_path : List Char) (u : List Char) (r : Option Response) :
    Option ((List Char) × List Nat) :=
  match r with
  | some resp =>
    if resp.ok then some ((convert_cover_url_to_path save_path u).2, resp.content)
    else none
  | none => none

/-- The write loop of `download_cover` over the URL/result pairs: skip falsy
results, otherwise create the directory if absent and write the file.
Returns the final filesystem and the chronological write log. -/
def coverLoop (sp : List Char) :
    List ((List Char) × Option Response) → FS → FS × List ((List Char) × List Nat)
  | [], fs => (fs, [])
  | (url, r) :: rest, fs =>
    match r with
    | none => coverLoop sp rest fs
    | some resp =>
      if resp.ok then
        let dp := (convert_cover_url_to_path sp url).1
        let fp := (convert_cover_url_to_path sp url).2
        let fs1 := if fsDirExists fs dp then fs else fsMakedirs fs dp
        let fs2 := fsWrite fs1 fp resp.content
        ((coverLoop sp rest fs2).1, (fp, resp.content) :: (coverLoop sp rest fs2).2)
      else coverLoop sp rest fs

/-- Embedding of `download_cover`: fetch every URL through the pool (an
exception raised by any fetch re-raises in the caller), then walk the
results in input order, writing each truthy response under the cover
namespace. -/
def download_cover (c : CoverCfg) (net : Net) (urls : List (List Char)) (fs : FS) :
    PyResult (FS × List ((List Char) × List Nat)) :=
  match firstExn (urls.map (fun u => download_file net u)) with
  | some e => .exn e
  | none => .ok (coverLoop c.save_path (urls.map (fun u => (u, fetchOpt net u))) fs)

/-- The closed form of the writes `download_cover` performs, paired URL by
URL. -/
def coverLog (c : CoverCfg) (net : Net) (urls : List (List Char)) :
    List ((List Char) × List Nat) :=
  urls.filterMap (fun u => coverEntry c.save_path u (fetchOpt net u))

/-- A network on which every request raises a connection error. -/
def netConnFail : Net := ⟨fun _ _ => .exn .connectionError⟩

/-- `C3` counterexample: `download_file` has no exception handler, so a
connection error raised by the attempted request propagates to the caller
instead of being returned as a value. -/
theorem download_file_raises_on_network_failure :
    download_file netConnFail "http://x".data = .exn .connectionError := by
  decide

/-- `C3` amended: `download_file` attempts only `http://`/`https://` URLs
and returns `None` for every other input without error; an attempted URL is
requested with a 60 second timeout and the response is returned — but a
network failure raised by the request propagates to the caller rather than
being returned as a value. -/
theorem download_file_behavior (net net2 : Net) (url : List Char) :
    (("https://".data.isPrefixOf url || "http://".data.isPrefixOf url) = false →
      download_file net url = .ok none) ∧
    (("https://".data.isPrefixOf url || "http://".data.isPrefixOf url) = true →
      net.get url 60 = net2.get url 60 →
      download_file net url = download_file net2 url) ∧
    (("https://".data.isPrefixOf url || "http://".data.isPrefixOf url) = true →
      ∀ r, net.get url 60 = .ok r → download_file net url = .ok (some r)) := by
  refine ⟨?_, ?_, ?_⟩
  · intro h
    simp [download_file, h]
  · intro h he
    simp [download_file, h, he]
  · intro h r hr
    simp [download_file, h, hr, pbind]

/-- A network that always answers with status 200 and body `[5]`. -/
def netOkC3 : Net := ⟨fun _ _ => .ok ⟨200, [5]⟩⟩

/-- Witness for `download_file_behavior`: an `ftp://` URL yields `None`, an
`http://` URL yields the response of the single request made with timeout
60. -/
theorem download_file_behavior_witness :
    (("https://".data.isPrefixOf "ftp://x".data ||
        "http://".data.isPrefixOf "ftp://x".data) = false ∧
      download_file netOkC3 "ftp://x".data = .ok none) ∧
    (("https://".data.isPrefixOf "http://y".data ||
        "http://".data.isPrefixOf "http://y".data) = true ∧
      download_file netOkC3 "http://y".data = .ok (some ⟨200, [5]⟩)) :=
  ⟨⟨by decide, (download_file_behavior netOkC3 netOkC3 "ftp://x".data).1 (by decide)⟩,
    ⟨by decide,
      (download_file_behavior netOkC3 netOkC3 "http://y".data).2.2 (by decide) _ rfl⟩⟩

/-- `C9`: `download_cover` on the empty URL list writes nothing and returns
the filesystem unchanged with an empty write log. -/
theorem download_cover_nil (c : CoverCfg) (net : Net) (fs : FS) :
    download_cover c net [] fs = .ok (fs, []) := rfl

/-- `C10`: a fetch that returns a response with an HTTP error status
(4xx/5xx) is treated by `download_cover` exactly like a skipped fetch — the
run over `u :: rest` equals the run over `rest`, so no directory is created
and no file is written for that URL even though a body was returned. -/
theorem download_cover_error_status_skipped (c : CoverCfg) (net : Net)
    (u : List Char) (r : Response) (hget : download_file net u = .ok (some r))
    (h4 : 400 ≤ r.status_code) (h6 : r.status_code < 600) :
    ∀ (rest : List (List Char)) (fs : FS),
      download_cover c net (u :: rest) fs = download_cover c net rest fs := by
  intro rest fs
  have hok : r.ok = false := by
    simp only [Response.ok, Bool.not_eq_true', Bool.and_eq_true, decide_eq_true_eq]
    simp [h4, h6]
  have hopt : fetchOpt net u = some r := by
    simp [fetchOpt, hget]
  unfold download_cover
  simp only [List.map_cons, hget, hopt, firstExn]
  cases hfe : firstExn (rest.map fun u => download_file net u) with
  | some e => rfl
  | none =>
    simp only [coverLoop, hok]
    simp

/-- A network answering 404 with a non-empty body. -/
def netC10 : Net := ⟨fun _ _ => .ok ⟨404, [9, 9]⟩⟩

/-- Witness for `download_cover_error_status_skipped` on a 404 response. -/
theorem download_cover_error_status_skipped_witness :
    (download_file netC10 "http://a/b.png".data = .ok (some ⟨404, [9, 9]⟩) ∧
      400 ≤ (404 : Nat) ∧ (404 : Nat) < 600) ∧
    download_cover ⟨"/save".data⟩ netC10 ["http://a/b.png".data] ⟨[], []⟩ =
      download_cover ⟨"/save".data⟩ netC10 [] ⟨[], []⟩ :=
  ⟨⟨by decide, by decide, by decide⟩,
    download_cover_error_status_skipped ⟨"/save".data⟩ netC10 "http://a/b.png".data
      ⟨404, [9, 9]⟩ (by decide) (by decide) (by decide) [] ⟨[], []⟩⟩

theorem fsRead_makedirs (fs : FS) (d p : List Char) :
    fsRead (fsMakedirs fs d) p = fsRead fs p := rfl

theorem fsRead_write_ne (fs : FS) (fp p : List Char) (b : List Nat) (h : fp ≠ p) :
    fsRead (fsWrite fs fp b) p = fsRead fs p := by
  unfold fsRead fsWrite
  have hbe : (p == fp) = false := beq_eq_false_iff_ne.mpr (fun hh => h hh.symm)
  simp [List.lookup, hbe]

theorem coverEntry_none (sp u : List Char) : coverEntry sp u none = none := rfl

theorem coverEntry_some_ok (sp u : List Char) (resp : Response) (h : resp.ok = true) :
    coverEntry sp u (some resp)
      = some ((convert_cover_url_to_path sp u).2, resp.content) := by
  simp [coverEntry, h]

theorem coverEntry_some_notok (sp u : List Char) (resp : Response) (h : resp.ok = false) :
    coverEntry sp u (some resp) = none := by
  simp [coverEntry, h]

theorem coverLoop_cons_none (sp u : List Char)
    (rest : List ((List Char) × Option Response)) (fs : FS) :
    coverLoop sp ((u, none) :: rest) fs = coverLoop sp rest fs := rfl

theorem coverLoop_cons_some_ok (sp u : List Char) (resp : Response)
    (rest : List ((List Char) × Option Response)) (fs : FS) (h : resp.ok = true) :
    coverLoop sp ((u, some resp) :: rest) fs =
      ((coverLoop sp rest
          (fsWrite
            (if fsDirExists fs (convert_cover_url_to_path sp u).1 then fs
             else fsMakedirs fs (convert_cover_url_to_path sp u).1)
            (convert_cover_url_to_path sp u).2 resp.content)).1,
        ((convert_cover_url_to_path sp u).2, resp.content) ::
          (coverLoop sp rest
            (fsWrite
              (if fsDirExists fs (convert_cover_url_to_path sp u).1 then fs
               else fsMakedirs fs (convert_cover_url_to_path sp u).1)
              (convert_cover_url_to_path sp u).2 resp.content)).2) := by
  simp [coverLoop, h]

theorem coverLoop_cons_some_notok (sp u : List Char) (resp : Response)
    (rest : List ((List Char) × Option Response)) (fs : FS) (h : resp.ok = false) :
    coverLoop sp ((u, some resp) :: rest) fs = coverLoop sp rest fs := by
  simp [coverLoop, h]

theorem coverLoop_cons_some_ok_fst (sp u : List Char) (resp : Response)
    (rest : List ((List Char) × Option Response)) (fs : FS) (h : resp.ok = true) :
    (coverLoop sp ((u, some resp) :: rest) fs).1 =
      (coverLoop sp rest
        (fsWrite
          (if fsDirExists fs (convert_cover_url_to_path sp u).1 then fs
           else fsMakedirs fs (convert_cover_url_to_path sp u).1)
          (convert_cover_url_to_path sp u).2 resp.content)).1 := by
  rw [coverLoop_cons_some_ok sp u resp rest fs h]

theorem coverLoop_cons_some_ok_snd (sp u : List Char) (resp : Response)
    (rest : List ((List Char) × Option Response)) (fs : FS) (h : resp.ok = true) :
    (coverLoop sp ((u, some resp) :: rest) fs).2 =
      ((convert_cover_url_to_path sp u).2, resp.content) ::
        (coverLoop sp rest
          (fsWrite
            (if fsDirExists fs (convert_cover_url_to_path sp u).1 then fs
             else fsMakedirs fs (convert_cover_url_to_path sp u).1)
            (convert_cover_url_to_path sp u).2 resp.content)).2 := by
  rw [coverLoop_cons_some_ok sp u resp rest fs h]

attribute [irreducible] convert_cover_url_to_path

theorem coverLoop_log (sp : List Char) (f : (List Char) → Option Response) :
    ∀ (urls : List (List Char)) (fs : FS),
      (coverLoop sp (urls.map (fun u => (u, f u))) fs).2
        = urls.filterMap (fun u => coverEntry sp u (f u)) := by
  intro urls
  induction urls with
  | nil => intro fs; rfl
  | cons u rest ih =>
    intro fs
    rw [List.map_cons, List.filterMap_cons]
    cases hf : f u with
    | none =>
      simp only [coverLoop_cons_none, coverEntry_none]
      exact ih fs
    | some resp =>
      cases hok : resp.ok with
      | true =>
        simp only [coverLoop_cons_some_ok sp u resp _ fs hok,
          coverEntry_some_ok sp u resp hok]
        rw [ih]
      | false =>
        simp only [coverLoop_cons_some_notok sp u resp _ fs hok,
          coverEntry_some_notok sp u resp hok]
        exact ih fs

theorem coverLoop_fs (sp : List Char) (f : (List Char) → Option Response) :
    ∀ (urls : List (List Char)) (fs : FS) (p : List Char),
      (∀ pr ∈ urls.filterMap (fun u => coverEntry sp u (f u)), pr.1 ≠ p) →
      fsRead ((coverLoop sp (urls.map (fun u => (u, f u))) fs).1) p = fsRead fs p := by
  intro urls
  induction urls with
  | nil => intro fs p _; rfl
  | cons u rest ih =>
    intro fs p hp
    have hrest : ∀ pr ∈ rest.filterMap (fun u => coverEntry sp u (f u)), pr.1 ≠ p := by
      intro pr hpr
      obtain ⟨v, hv, hgv⟩ := List.mem_filterMap.mp hpr
      exact hp pr (List.mem_filterMap.mpr ⟨v, List.mem_cons.mpr (Or.inr hv), hgv⟩)
    rw [List.map_cons]
    cases hf : f u with
    | none =>
      simp only [coverLoop_cons_none]
      exact ih fs p hrest
    | some resp =>
      cases hok : resp.ok with
      | true =>
        rw [coverLoop_cons_some_ok_fst sp u resp _ fs hok]
        have hg : coverEntry sp u (f u)
            = some ((convert_cover_url_to_path sp u).2, resp.content) := by
          rw [hf]
          exact coverEntry_some_ok sp u resp hok
        have hmem : ((convert_cover_url_to_path sp u).2, resp.content) ∈
            (u :: rest).filterMap (fun u => coverEntry sp u (f u)) :=
          List.mem_filterMap.mpr ⟨u, List.mem_cons_self u rest, hg⟩
        have hfp : (convert_cover_url_to_path sp u).2 ≠ p :=
          hp ((convert_cover_url_to_path sp u).2, resp.content) hmem
        rw [ih _ p hrest, fsRead_write_ne _ _ _ _ hfp]
        by_cases hd : fsDirExists fs (convert_cover_url_to_path sp u).1 = true
        · rw [if_pos hd]
        · rw [if_neg hd, fsRead_makedirs]
      | false =>
        rw [coverLoop_cons_some_notok sp u resp _ fs hok]
        exact ih fs p hrest


theorem length_filterMap_eq_countP {α β : Type} (g : α → Option β) :
    ∀ l : List α, (l.filterMap g).length = l.countP (fun a => (g a).isSome) := by
  intro l
  induction l with
  | nil => rfl
  | cons a as ih =>
    cases hg : g a with
    | none => simp [List.filterMap_cons, hg, List.countP_cons, ih]
    | some b => simp [List.filterMap_cons, hg, List.countP_cons, ih]

theorem countP_add_countP_not {α : Type} (p : α → Bool) :
    ∀ l : List α, l.countP p + l.countP (fun a => !(p a)) = l.length := by
  intro l
  induction l with
  | nil => rfl
  | cons a as ih =>
    by_cases h : p a = true <;>
      simp [List.countP_cons, h, ← ih] <;> omega

theorem countP_congr_here {α : Type} {p q : α → Bool} :
    ∀ l : List α, (∀ a ∈ l, p a = q a) → l.countP p = l.countP q := by
  intro l
  induction l with
  | nil => intro _; rfl
  | cons a as ih =>
    intro h
    simp only [List.countP_cons, h a (List.mem_cons_self a as),
      ih (fun x hx => h x (List.mem_cons.mpr (Or.inr hx)))]

theorem coverEntry_isSome (sp : List Char) (net : Net) (u : List Char) :
    (coverEntry sp u (fetchOpt net u)).isSome = fetchTruthy (download_file net u) := by
  unfold fetchOpt fetchTruthy coverEntry
  cases hd : download_file net u with
  | exn e => rfl
  | ok v =>
    cases v with
    | none => rfl
    | some resp =>
      by_cases hok : resp.ok = true
      · simp [hok]
      · rw [Bool.not_eq_true] at hok
        simp [hok]

/-- `C4`: on a URL list whose fetches all return (none raises),
`download_cover` performs exactly one write per truthy fetch — so `N - K`
writes when `K` of the `N` fetches fail — each at the file path predicted by
`convert_cover_url_to_path` for its originating URL, overwriting prior
content, and every path it does not write is untouched (failed fetches
leave no partial file). -/
theorem download_cover_success_writes (c : CoverCfg) (net : Net)
    (urls : List (List Char)) (fs : FS)
    (h : firstExn (urls.map (fun u => download_file net u)) = none) :
    ∃ fs2,
      download_cover c net urls fs = .ok (fs2, coverLog c net urls) ∧
      (coverLog c net urls).length
          + urls.countP (fun u => !(fetchTruthy (download_file net u))) = urls.length ∧
      (∀ pr ∈ coverLog c net urls, ∃ u ∈ urls,
          fetchTruthy (download_file net u) = true ∧
          pr.1 = (convert_cover_url_to_path c.save_path u).2) ∧
      (∀ p, (∀ pr ∈ coverLog c net urls, pr.1 ≠ p) → fsRead fs2 p = fsRead fs p) := by
  refine ⟨(coverLoop c.save_path (urls.map (fun u => (u, fetchOpt net u))) fs).1,
    ?_, ?_, ?_, ?_⟩
  · unfold download_cover
    rw [h]
    unfold coverLog
    rw [← coverLoop_log c.save_path (fetchOpt net) urls fs]
  · unfold coverLog
    rw [length_filterMap_eq_countP,
      countP_congr_here urls (fun u _ => coverEntry_isSome c.save_path net u)]
    exact countP_add_countP_not _ urls
  · intro pr hpr
    unfold coverLog at hpr
    obtain ⟨u, hu, hg⟩ := List.mem_filterMap.mp hpr
    refine ⟨u, hu, ?_, ?_⟩
    · rw [← coverEntry_isSome c.save_path net u, hg]
      rfl
    · cases hfo : fetchOpt net u with
      | none => rw [hfo] at hg; exact absurd hg (by simp [coverEntry])
      | some resp =>
        rw [hfo] at hg
        simp only [coverEntry] at hg
        by_cases hok : resp.ok = true
        · rw [if_pos hok] at hg
          injection hg with hg2
          rw [← hg2]
        · rw [Bool.not_eq_true] at hok
          rw [hok] at hg
          simp at hg
  · intro p hp
    exact coverLoop_fs c.save_path (fetchOpt net) urls fs p hp

/-- A network for the `download_cover` witness: one URL succeeds with status
200, everything else gets a 404. -/
def netC4 : Net :=
  ⟨fun u _ => if u = "http://ok.example/a.png".data then .ok ⟨200, [7, 7]⟩
    else .ok ⟨404, [9]⟩⟩

/-- Three cover URLs: one succeeds, one gets a 404, one is not http. -/
def urlsC4 : List (List Char) :=
  ["http://ok.example/a.png".data, "http://bad.example/b.png".data, "ftp://c/d".data]

/-- Witness for `download_cover_success_writes`: three URLs of which two
fail, so exactly one file is written. -/
theorem download_cover_success_writes_witness :
    firstExn (urlsC4.map (fun u => download_file netC4 u)) = none ∧
    (∃ fs2,
      download_cover ⟨"/save".data⟩ netC4 urlsC4 ⟨[], []⟩ =
        .ok (fs2, coverLog ⟨"/save".data⟩ netC4 urlsC4) ∧
      (coverLog ⟨"/save".data⟩ netC4 urlsC4).length
          + urlsC4.countP (fun u => !(fetchTruthy (download_file netC4 u)))
          = urlsC4.length ∧
      (∀ pr ∈ coverLog ⟨"/save".data⟩ netC4 urlsC4, ∃ u ∈ urlsC4,
          fetchTruthy (download_file netC4 u) = true ∧
          pr.1 = (convert_cover_url_to_path (CoverCfg.mk "/save".data).save_path u).2) ∧
      (∀ p, (∀ pr ∈ coverLog ⟨"/save".data⟩ netC4 urlsC4, pr.1 ≠ p) →
          fsRead fs2 p = fsRead ⟨[], []⟩ p)) :=
  ⟨by decide, download_cover_success_writes ⟨"/save".data⟩ netC4 urlsC4 ⟨[], []⟩ (by decide)⟩

/-- Witness for `check_update_comparators` at components `0 < 1`. -/
theorem check_update_comparators_witness :
    (0 : Int) < 1 ∧
    ((updateOnce envC1b).msgs = [UpdMsg.checkingUpdate, UpdMsg.successLatest] ∧
      (updateOnce envC1b).frontendInstalled = true ∧
      (updateOnce envC1).frontendInstalled = true ∧
      pyListGtI (1 :: []) (0 :: []) = true ∧
      pyListGtI ((0 :: []) ++ 1 :: []) (0 :: []) = true ∧
      pyStrGt "2.10".data "2.9".data = false) :=
  ⟨by decide, check_update_comparators 0 1 [] [] (by decide)⟩

/-! ### `episode_filter_regex` -/

/-- An episode record: only the title is consulted by this module (the
keyword predicate is supplied by the record's own class, a collaborator). -/
structure Episode where
  title : List Char
deriving DecidableEq, Repr

/-- The filter-related configuration surface: `cfg.enable_global_filters`
and `cfg.global_filters`. -/
structure FilterCfg where
  enable_global_filters : Bool
  global_filters : List (List Char)

/-- Python `str.lower()` restricted to the ASCII case used here. -/
def lowerStr (l : List Char) : List Char := l.map Char.toLower

/-- The keyword-exclusion stage of `episode_filter_regex`: when global
filters are enabled, strip and lower-case each configured keyword and drop
every record whose title contains any of them, as decided by the record's
`contains_any_words` collaborator predicate `caw`. -/
def keywordStage (caw : List Char → List (List Char) → Bool) (c : FilterCfg)
    (data : List Episode) : List Episode :=
  if c.enable_global_filters then
    data.filter (fun x => !(caw x.title (c.global_filters.map (fun t => lowerStr (stripWS t)))))
  else data

/-- Embedding of `episode_filter_regex`: an engine `eng` models `re.compile`
(`none` is a compile failure) with a compiled regex modelled by whether
`findall` on a title is non-empty; `debug` models the `DEBUG` environment
variable.  Returns the filtered list and whether the compile-failure warning
was printed, or the propagated exception. -/
def episode_filter_regex (eng : List Char → Option (List Char → Bool))
    (debug : Bool) (caw : List Char → List (List Char) → Bool) (c : FilterCfg)
    (data : List Episode) (regex : Option (List Char)) :
    PyResult (List Episode × Bool) :=
  match regex with
  | none => .ok (keywordStage caw c data, false)
  | some r =>
    if r.isEmpty then .ok (keywordStage caw c data, false)
    else
      match eng r with
      | some m => .ok (keywordStage caw c (data.filter (fun s => m s.title)), false)
      | none =>
        if debug then .exn .regexError
        else .ok (keywordStage caw c data, true)

/-- `C8`: when the supplied regex fails to compile, `episode_filter_regex`
without the debug flag warns, skips the regex stage entirely and hands the
unfiltered list to the keyword-exclusion stage, raising nothing; with the
debug flag set, the compile failure propagates to the caller. -/
theorem episode_filter_regex_bad_regex (eng : List Char → Option (List Char → Bool))
    (caw : List Char → List (List Char) → Bool) (c : FilterCfg)
    (data : List Episode) (r : List Char)
    (hr : r.isEmpty = false) (hc : eng r = none) :
    episode_filter_regex eng false caw c data (some r)
        = .ok (keywordStage caw c data, true) ∧
    episode_filter_regex eng true caw c data (some r) = .exn .regexError := by
  constructor <;> simp [episode_filter_regex, hr, hc]

/-- A regex engine on which every pattern fails to compile. -/
def engFail : (List Char) → Option (List Char → Bool) := fun _ => none

/-- The substring-based `contains_any_words` collaborator predicate. -/
def cawSub (title : List Char) (kws : List (List Char)) : Bool :=
  kws.any (fun k => containsSub k (lowerStr title))

/-- Witness for `episode_filter_regex_bad_regex` on a concrete failing
pattern: the non-debug run warns and still applies the keyword stage, the
debug run raises. -/
theorem episode_filter_regex_bad_regex_witness :
    (("[".data : List Char).isEmpty = false ∧ engFail "[".data = none) ∧
    episode_filter_regex engFail false cawSub ⟨true, [" RAW ".data]⟩
        [⟨"Show S01E01 raw".data⟩, ⟨"Show S01E02".data⟩] (some "[".data)
      = .ok (keywordStage cawSub ⟨true, [" RAW ".data]⟩
          [⟨"Show S01E01 raw".data⟩, ⟨"Show S01E02".data⟩], true) ∧
    episode_filter_regex engFail true cawSub ⟨true, [" RAW ".data]⟩
        [⟨"Show S01E01 raw".data⟩, ⟨"Show S01E02".data⟩] (some "[".data)
      = .exn .regexError :=
  ⟨⟨rfl, rfl⟩,
    (episode_filter_regex_bad_regex engFail cawSub ⟨true, [" RAW ".data]⟩
      [⟨"Show S01E01 raw".data⟩, ⟨"Show S01E02".data⟩] "[".data rfl rfl).1,
    (episode_filter_regex_bad_regex engFail cawSub ⟨true, [" RAW ".data]⟩
      [⟨"Show S01E01 raw".data⟩, ⟨"Show S01E02".data⟩] "[".data rfl rfl).2⟩

end BGmi
